import Mathlib

/-!
Shallow embedding of `src/app.py` (piano-exercise-generator).

The program is a single-pass pipeline over a chord progression string and a
song-key string.  The music-theory library (music21) and the MIDI writer
(midiutil) are external collaborators: they are modelled as an environment
`Env` of abstract parsing / derivation functions, and the repository's own
logic (`get_scales_for_chord`, `generate_arpeggio_pattern`,
`generate_melody_idea`, `create_midi_exercise`, `generate_exercises`) is
translated line by line.  Python exceptions are modelled with `Except Unit`
(an exception propagates as `Except.error ()`), and fallible collaborator
calls return `Option`.
-/

/-- Result of `chord.Chord(name)` for a parseable chord symbol: root pitch
name, the `nameWithOctave` of each constituent note in reported order, the
`pitch.midi` value of each constituent pitch, and the three classification
queries used by the scale advisor. -/
structure ParsedChord where
  rootName : String
  noteNames : List String
  pitchMidis : List Nat
  isMajorTriad : Bool
  isMinorTriad : Bool
  isDominantSeventh : Bool
deriving DecidableEq, Repr

/-- The two scale templates the melody sketcher chooses between
(`scale.MajorScale()` / `scale.MinorScale()`). -/
inductive ScaleFamily where
  | major : ScaleFamily
  | minor : ScaleFamily
deriving DecidableEq, Repr

/-- The external collaborators consumed by the pipeline:
`parseChord` models `chord.Chord(name)` (`none` = the constructor raises),
`parseKey` models `key.Key(song_key)` (`none` = raises),
`derivePitches` models `sc.derive(root).getPitches()` for the chosen scale
family (`none` = raises), and `transpose12` models
`note.transpose(12).nameWithOctave` on a note name. -/
structure Env where
  parseChord : String → Option ParsedChord
  parseKey : String → Option Unit
  derivePitches : ScaleFamily → String → Option (List String)
  transpose12 : String → String

/-- Lines 11-18 of `get_scales_for_chord`: the if/elif rule table mapping the
chord classification to scale-suggestion strings.  The `song_key` parameter
is accepted (as in the source signature) and never read. -/
def scaleSuggestions (c : ParsedChord) (song_key : String) : List String :=
  let root := c.rootName
  if c.isMajorTriad then
    [root ++ " Ionian (Major)", root ++ " Lydian"]
  else if c.isMinorTriad then
    [root ++ " Dorian", root ++ " Aeolian (Natural Minor)"]
  else if c.isDominantSeventh then
    [root ++ " Mixolydian", root ++ " Altered Dominant"]
  else
    [root ++ " Major (default)"]

/-- `get_scales_for_chord(chord_name, song_key)`: parse the chord symbol
(line 9; an unparseable symbol raises, which propagates) and apply the rule
table. -/
def get_scales_for_chord (env : Env) (chord_name song_key : String) :
    Except Unit (List String) :=
  match env.parseChord chord_name with
  | none => Except.error ()
  | some c => Except.ok (scaleSuggestions c song_key)

/-- Line 23-24 of `generate_arpeggio_pattern`, before the string join: the
token list `arpeggio + arpeggio[::-1]` where
`arpeggio = [n.nameWithOctave for n in ch.notes] + [ch.notes[0].transpose(12).nameWithOctave]`.
Accessing `ch.notes[0]` on a chord with no notes raises. -/
def generate_arpeggio_tokens (env : Env) (chord_name : String) :
    Except Unit (List String) :=
  match env.parseChord chord_name with
  | none => Except.error ()
  | some c =>
    match c.noteNames with
    | [] => Except.error ()
    | n0 :: _ =>
      let arpeggio := c.noteNames ++ [env.transpose12 n0]
      Except.ok (arpeggio ++ arpeggio.reverse)

/-- `generate_arpeggio_pattern(chord_name)`: the arrow-joined token list. -/
def generate_arpeggio_pattern (env : Env) (chord_name : String) :
    Except Unit String :=
  (generate_arpeggio_tokens env chord_name).map (String.intercalate " -> ")

/-- Auxiliary for Python substring membership: does `hay` start with
`needle`? -/
def charsLeadWith : List Char → List Char → Bool
  | [], _ => true
  | _ :: _, [] => false
  | a :: as, b :: bs => (a == b) && charsLeadWith as bs

/-- Python `needle in hay` on strings, as character lists: `needle` occurs
contiguously somewhere in `hay`. -/
def charsContain : List Char → List Char → Bool
  | hay, needle =>
    charsLeadWith needle hay ||
    match hay with
    | [] => false
    | _ :: rest => charsContain rest needle

/-- Python `needle in hay` on strings. -/
def pyContains (hay needle : String) : Bool :=
  charsContain hay.toList needle.toList

/-- Python `s.lower()`, character by character (ASCII case mapping, which
covers every key string whose words "major"/"minor" are at stake). -/
def pyLower (s : String) : String :=
  String.mk (s.toList.map Char.toLower)

/-- Line 32 of `generate_melody_idea`:
`scale.MajorScale() if 'major' in song_key.lower() else scale.MinorScale()`. -/
def melodyScaleFamily (song_key : String) : ScaleFamily :=
  if pyContains (pyLower song_key) "major" then
    ScaleFamily.major
  else
    ScaleFamily.minor

/-- Python slice `xs[s:e]` for natural indices. -/
def pySlice {α : Type} (xs : List α) (s e : Nat) : List α :=
  (xs.drop s).take (e - s)

/-- Line 34: `sc.getPitches()[start:end]` where `draw = (start, end)` are the
two values produced by `random.randint(0, 4)` and `random.randint(5, 7)`. -/
def melodySegment (pitches : List String) (draw : Nat × Nat) : List String :=
  pySlice pitches draw.1 draw.2

/-- The `for ch in chords` loop of `generate_melody_idea` (lines 31-35),
inside the `try`: per chord, choose the scale family from the song key,
parse the chord (may raise), derive the scale on its root and take its
pitches (may raise), slice a random segment, and collect the pitch names.
`draws` is the injected random source, one `(start, end)` pair per loop
iteration, indexed by position `i`. -/
def melodyLoop (env : Env) (song_key : String) (draws : Nat → Nat × Nat) :
    Nat → List String → Except Unit (List String)
  | _, [] => Except.ok []
  | i, ch :: rest =>
    match env.parseChord ch with
    | none => Except.error ()
    | some pc =>
      match env.derivePitches (melodyScaleFamily song_key) pc.rootName with
      | none => Except.error ()
      | some pitches =>
        match melodyLoop env song_key draws (i + 1) rest with
        | Except.error e => Except.error e
        | Except.ok tail => Except.ok (melodySegment pitches (draws i) ++ tail)

/-- The whole `try` block of `generate_melody_idea` (lines 29-36): parse the
song key (may raise), run the per-chord loop, join the collected pitch names
with single spaces. -/
def generate_melody_idea_body (env : Env) (draws : Nat → Nat × Nat)
    (chords : List String) (song_key : String) : Except Unit String :=
  match env.parseKey song_key with
  | none => Except.error ()
  | some _ =>
    match melodyLoop env song_key draws 0 chords with
    | Except.error e => Except.error e
    | Except.ok names => Except.ok (String.intercalate " " names)

/-- The literal fallback string returned by the `except:` arm (line 38). -/
def fallbackMelody : String :=
  "Could not generate melody—check key format (e.g., \x27C major\x27)."

/-- `generate_melody_idea(chords, song_key)`: the `try` body with the bare
`except:` wrapped around it — any exception anywhere inside yields the
fallback string. -/
def generate_melody_idea (env : Env) (draws : Nat → Nat × Nat)
    (chords : List String) (song_key : String) : String :=
  match generate_melody_idea_body env draws chords song_key with
  | Except.ok s => s
  | Except.error _ => fallbackMelody

/-- One MIDI note event, as handed to `midi.addNote(track, channel, pitch,
time, duration, volume)` on line 53. -/
structure NoteEvent where
  track : Nat
  channel : Nat
  pitch : Nat
  time : Nat
  duration : Nat
  volume : Nat
deriving DecidableEq, Repr

/-- The inner `for pitch in ch.pitches` loop of `create_midi_exercise`
(lines 52-54): one note per pitch, onset at the running cursor, cursor
advanced by `duration = 1` after each note.  `track = 0`, `channel = 0`,
`volume = 100`. -/
def chordNoteEvents (t : Nat) : List Nat → List NoteEvent
  | [] => []
  | p :: rest =>
    { track := 0, channel := 0, pitch := p, time := t, duration := 1,
      volume := 100 } :: chordNoteEvents (t + 1) rest

/-- The outer `for ch_name in chords` loop (lines 50-55), grouped per chord:
after a chord's notes the cursor has advanced by the chord's pitch count,
then by `duration * 2 = 2` more for the pause. -/
def midiChordBlocks (t : Nat) : List (List Nat) → List (List NoteEvent)
  | [] => []
  | ps :: rest =>
    chordNoteEvents t ps :: midiChordBlocks (t + ps.length + 2) rest

/-- The flat note-event sequence of `create_midi_exercise`, in emission
order. -/
def midiNoteEvents (t : Nat) (pss : List (List Nat)) : List NoteEvent :=
  (midiChordBlocks t pss).flatten

/-- The data `create_midi_exercise` supplies to the MIDI writer: the tempo
meta-event from `midi.addTempo(track, time, 120)` at line 45 (with
`track = 0`, `time = 0`) and the note events. -/
structure MidiData where
  tempoTrack : Nat
  tempoTime : Nat
  tempoBPM : Nat
  notes : List NoteEvent
deriving DecidableEq, Repr

/-- `create_midi_exercise(chords)` (lines 40-60): parse each chord token
(an unparseable token raises, modelled as `none`), then emit the tempo event
and the per-chord note events starting from cursor `time = 0`.  The
byte-level file encoding performed by the external MIDI library is outside
the model; `MidiData` is exactly the event data this component decides. -/
def create_midi_exercise (env : Env) (chords : List String) :
    Option MidiData :=
  match chords.mapM env.parseChord with
  | none => none
  | some pcs =>
    some { tempoTrack := 0, tempoTime := 0, tempoBPM := 120,
           notes := midiNoteEvents 0 (pcs.map (fun pc => pc.pitchMidis)) }

/-- Accumulating splitter over a character list: `cur` holds the reversed
characters of the token being read.  A whitespace character ends the current
token (if any); no empty tokens are produced. -/
def wsTokens : List Char → List Char → List String
  | [], cur => if cur.isEmpty then [] else [String.mk cur.reverse]
  | c :: cs, cur =>
    if c.isWhitespace then
      (if cur.isEmpty then wsTokens cs []
       else String.mk cur.reverse :: wsTokens cs [])
    else wsTokens cs (c :: cur)

/-- Python `progression.strip().split()` (line 63): split on whitespace runs
with no empty tokens (`split()` with no argument already ignores leading and
trailing whitespace, so the preceding `strip()` does not change the token
list). -/
def pyStripSplit (s : String) : List String :=
  wsTokens s.toList []

/-- `generate_exercises(chord_progression, song_key)` (lines 62-89).  The
empty-progression branch returns the plain message (`Sum.inl`); otherwise
the Markdown report is assembled section by section and paired with the MIDI
data (`Sum.inr`).  A chord-parse failure in the scales, arpeggio or MIDI
steps propagates (`Except.error`); only the melody step has local
recovery. -/
def generate_exercises (env : Env) (draws : Nat → Nat × Nat)
    (chord_progression : String) (song_key : String) :
    Except Unit (Sum String (String × MidiData)) :=
  let chords := pyStripSplit chord_progression
  if chords = [] then
    Except.ok (Sum.inl "Please enter a chord progression.")
  else do
    let header := "**Song Key:** " ++ song_key ++ "\n**Chord Progression:** "
      ++ String.intercalate " " chords ++ "\n\n"
    let scaleLines ← chords.mapM (fun ch => do
      let scales ← get_scales_for_chord env ch song_key
      pure ("- Over " ++ ch ++ ": " ++ String.intercalate ", " scales ++ "\n"))
    let arpLines ← chords.mapM (fun ch => do
      let arp ← generate_arpeggio_pattern env ch
      pure ("- For " ++ ch ++ ": " ++ arp ++ "\n"))
    let melody := generate_melody_idea env draws chords song_key
    let output := header
      ++ "### Suggested Scales for Improvisation:\n" ++ String.join scaleLines
      ++ "\n### Arpeggio Exercises (Practice in both hands, ascending/descending):\n"
      ++ String.join arpLines
      ++ "\n### Simple Melody Improv Idea (Play over the progression):\n"
      ++ melody ++ "\n\n"
      ++ "Practice Tip: Start slow, loop the progression, and gradually add your own variations using the scales above."
    match create_midi_exercise env chords with
    | none => Except.error ()
    | some midi => Except.ok (Sum.inr (output, midi))

/-- Concrete collaborator data for instantiating the theorems: the C major
triad as music21 reports it for the symbol "C". -/
def cMajorChord : ParsedChord :=
  { rootName := "C", noteNames := ["C4", "E4", "G4"],
    pitchMidis := [60, 64, 67],
    isMajorTriad := true, isMinorTriad := false, isDominantSeventh := false }

/-- The G major triad as music21 reports it for the symbol "G". -/
def gMajorChord : ParsedChord :=
  { rootName := "G", noteNames := ["G4", "B4", "D5"],
    pitchMidis := [67, 71, 74],
    isMajorTriad := true, isMinorTriad := false, isDominantSeventh := false }

/-- A concrete environment recognising the chord symbols "C" and "G" and the
key "C major", with one-octave major scales on C and G. -/
def envC : Env :=
  { parseChord := fun name =>
      if name = "C" then some cMajorChord
      else if name = "G" then some gMajorChord
      else none,
    parseKey := fun k => if k = "C major" then some () else none,
    derivePitches := fun _ root =>
      if root = "C" then
        some ["C4", "D4", "E4", "F4", "G4", "A4", "B4", "C5"]
      else if root = "G" then
        some ["G4", "A4", "B4", "C5", "D5", "E5", "F#5", "G5"]
      else none,
    transpose12 := fun n =>
      if n = "C4" then "C5" else if n = "G4" then "G5" else n }

/-- A concrete environment whose key parser accepts everything but whose
chord parser always raises, exercising the melody sketcher's recovery from
chord-parse failures. -/
def envB : Env :=
  { parseChord := fun _ => none,
    parseKey := fun _ => some (),
    derivePitches := fun _ _ => none,
    transpose12 := fun n => n }

/-- A fixed random source: every draw is `(0, 5)`. -/
def drawsZero : Nat → Nat × Nat := fun _ => (0, 5)

/-- C7: the Scale Advisor's output does not depend on the Song Key — for any
chord symbol and any two key strings the results coincide (the `song_key`
parameter is accepted but never read). -/
theorem scale_advisor_key_independent (env : Env) (name k1 k2 : String) :
    get_scales_for_chord env name k1 = get_scales_for_chord env name k2 := by
  unfold get_scales_for_chord
  cases env.parseChord name <;> rfl

/-- C3: for every parsed chord with root name `r`, the Scale Advisor returns
exactly the rule-table lists with first-match-wins priority
(major triad, then minor triad, then dominant seventh, then the default),
and the result is never empty.  Determinism is inherent: `scaleSuggestions`
is a pure function of its arguments. -/
theorem scale_advisor_rule_table (c : ParsedChord) (k : String) :
    scaleSuggestions c k ≠ [] ∧
    (c.isMajorTriad = true →
      scaleSuggestions c k =
        [c.rootName ++ " Ionian (Major)", c.rootName ++ " Lydian"]) ∧
    (c.isMajorTriad = false → c.isMinorTriad = true →
      scaleSuggestions c k =
        [c.rootName ++ " Dorian", c.rootName ++ " Aeolian (Natural Minor)"]) ∧
    (c.isMajorTriad = false → c.isMinorTriad = false →
      c.isDominantSeventh = true →
      scaleSuggestions c k =
        [c.rootName ++ " Mixolydian", c.rootName ++ " Altered Dominant"]) ∧
    (c.isMajorTriad = false → c.isMinorTriad = false →
      c.isDominantSeventh = false →
      scaleSuggestions c k = [c.rootName ++ " Major (default)"]) := by
  unfold scaleSuggestions
  cases hM : c.isMajorTriad <;> cases hm : c.isMinorTriad <;>
    cases hd : c.isDominantSeventh <;> simp

/-- C3 witness: the rule table evaluated on the concrete C major triad. -/
theorem scale_advisor_rule_table_witness :
    scaleSuggestions cMajorChord "C major" ≠ [] ∧
    (cMajorChord.isMajorTriad = true →
      scaleSuggestions cMajorChord "C major" =
        [cMajorChord.rootName ++ " Ionian (Major)",
         cMajorChord.rootName ++ " Lydian"]) ∧
    (cMajorChord.isMajorTriad = false → cMajorChord.isMinorTriad = true →
      scaleSuggestions cMajorChord "C major" =
        [cMajorChord.rootName ++ " Dorian",
         cMajorChord.rootName ++ " Aeolian (Natural Minor)"]) ∧
    (cMajorChord.isMajorTriad = false → cMajorChord.isMinorTriad = false →
      cMajorChord.isDominantSeventh = true →
      scaleSuggestions cMajorChord "C major" =
        [cMajorChord.rootName ++ " Mixolydian",
         cMajorChord.rootName ++ " Altered Dominant"]) ∧
    (cMajorChord.isMajorTriad = false → cMajorChord.isMinorTriad = false →
      cMajorChord.isDominantSeventh = false →
      scaleSuggestions cMajorChord "C major" =
        [cMajorChord.rootName ++ " Major (default)"]) :=
  scale_advisor_rule_table cMajorChord "C major"

/-- C1 counterexample: the key string "C" contains neither "major" nor
"minor", yet the Melody Sketcher's line 32 chooses the minor-scale template
for it — refuting the claim that the major template is chosen whenever the
key does not contain "minor". -/
theorem melody_scale_family_counterexample :
    melodyScaleFamily "C" = ScaleFamily.minor ∧
    pyContains (pyLower "C") "minor" = false ∧
    pyContains (pyLower "C") "major" = false := by
  refine ⟨rfl, rfl, rfl⟩

/-- C1 amended: the scale family chosen by line 32 is the major-scale
template exactly when the lowercased Song Key contains the substring
"major", and the minor-scale template exactly otherwise (so a key containing
neither word selects the minor template). -/
theorem melody_scale_family_spec (song_key : String) :
    (melodyScaleFamily song_key = ScaleFamily.major ↔
      pyContains (pyLower song_key) "major" = true) ∧
    (melodyScaleFamily song_key = ScaleFamily.minor ↔
      pyContains (pyLower song_key) "major" = false) := by
  unfold melodyScaleFamily
  by_cases h : pyContains (pyLower song_key) "major" = true <;> simp [h]

/-- C8: for any derived pitch collection of at least 8 pitches and any draw
with start index in [0,4] and end index in [5,7], the melody segment sliced
at line 34 has exactly `e - s` pitches, hence between 1 and 7, and is never
empty; in particular the start index is always strictly below the end
index. -/
theorem melody_segment_bounds (pitches : List String) (s e : Nat)
    (hlen : 8 ≤ pitches.length) (hs : s ≤ 4) (he5 : 5 ≤ e) (he7 : e ≤ 7) :
    s < e ∧ (melodySegment pitches (s, e)).length = e - s ∧
    1 ≤ (melodySegment pitches (s, e)).length ∧
    (melodySegment pitches (s, e)).length ≤ 7 := by
  unfold melodySegment pySlice
  simp only [List.length_take, List.length_drop]
  omega

/-- C8 witness: the bounds at the concrete C major scale with the extreme
draw `(4, 5)`. -/
theorem melody_segment_bounds_witness :
    (8 : Nat) ≤ (["C4", "D4", "E4", "F4", "G4", "A4", "B4", "C5"] : List String).length ∧
    ((4 : Nat) < 5 ∧
      (melodySegment ["C4", "D4", "E4", "F4", "G4", "A4", "B4", "C5"] (4, 5)).length = 5 - 4 ∧
      1 ≤ (melodySegment ["C4", "D4", "E4", "F4", "G4", "A4", "B4", "C5"] (4, 5)).length ∧
      (melodySegment ["C4", "D4", "E4", "F4", "G4", "A4", "B4", "C5"] (4, 5)).length ≤ 7) :=
  ⟨by decide,
   melody_segment_bounds ["C4", "D4", "E4", "F4", "G4", "A4", "B4", "C5"] 4 5
     (by decide) (by decide) (by decide) (by decide)⟩

/-- C4: whenever the trimmed progression string splits into zero whitespace
tokens, the Orchestrator returns exactly the message string and nothing
else.  The result is `Except.ok (Sum.inl _)` for every environment,
including environments whose chord parser and MIDI builder always fail, so
no chord parsing and no MIDI construction can have occurred. -/
theorem orchestrator_empty_input (env : Env) (draws : Nat → Nat × Nat)
    (s song_key : String) (h : pyStripSplit s = []) :
    generate_exercises env draws s song_key =
      Except.ok (Sum.inl "Please enter a chord progression.") := by
  unfold generate_exercises
  simp [h]

/-- C4 witness: the all-whitespace input "   " with the all-failing
environment `envB`. -/
theorem orchestrator_empty_input_witness :
    pyStripSplit "   " = [] ∧
    generate_exercises envB drawsZero "   " "C major" =
      Except.ok (Sum.inl "Please enter a chord progression.") :=
  ⟨rfl, orchestrator_empty_input envB drawsZero "   " "C major" rfl⟩

/-- C5: the Melody Sketcher is total and two-valued — for every environment,
random source, progression and key, either the try-body succeeds and its
string is returned unchanged, or the body raises (key parsing, scale
derivation, or anything else inside the `try`) and the function returns
exactly the literal fallback string, with no partial melody output. -/
theorem melody_sketcher_never_raises (env : Env) (draws : Nat → Nat × Nat)
    (chords : List String) (song_key : String) :
    (∃ s, generate_melody_idea_body env draws chords song_key = Except.ok s ∧
      generate_melody_idea env draws chords song_key = s) ∨
    (generate_melody_idea_body env draws chords song_key = Except.error () ∧
      generate_melody_idea env draws chords song_key = fallbackMelody) := by
  unfold generate_melody_idea
  cases h : generate_melody_idea_body env draws chords song_key with
  | ok s => exact Or.inl ⟨s, rfl, rfl⟩
  | error e => exact Or.inr ⟨rfl, rfl⟩

/-- Helper: if some chord in the list fails to parse, the melody loop raises
(the bare `except:` will then catch it). -/
theorem melodyLoop_error_of_bad_chord (env : Env) (song_key : String)
    (draws : Nat → Nat × Nat) :
    ∀ (chords : List String) (i : Nat),
      (∃ ch ∈ chords, env.parseChord ch = none) →
      melodyLoop env song_key draws i chords = Except.error () := by
  intro chords
  induction chords with
  | nil => intro i h; exact absurd h (by simp)
  | cons c rest ih =>
    intro i h
    obtain ⟨ch, hmem, hbad⟩ := h
    cases hc : env.parseChord c with
    | none => simp [melodyLoop, hc]
    | some pc =>
      have hrest : ∃ ch ∈ rest, env.parseChord ch = none := by
        rcases List.mem_cons.mp hmem with heq | hmem'
        · exact absurd hbad (by rw [heq]; simp [hc])
        · exact ⟨ch, hmem', hbad⟩
      cases hd : env.derivePitches (melodyScaleFamily song_key) pc.rootName with
      | none => simp [melodyLoop, hc, hd]
      | some pitches => simp [melodyLoop, hc, hd, ih (i + 1) hrest]

/-- C10: the melody sketcher's exception recovery covers the entire
per-chord loop, not only key parsing — even with a key string the key parser
accepts, a chord symbol that fails to parse inside the loop makes the whole
function return the fallback string rather than propagate. -/
theorem melody_catches_chord_parse_failure (env : Env)
    (draws : Nat → Nat × Nat) (chords : List String) (song_key : String)
    (hkey : env.parseKey song_key ≠ none)
    (hch : ∃ ch ∈ chords, env.parseChord ch = none) :
    generate_melody_idea env draws chords song_key = fallbackMelody := by
  unfold generate_melody_idea generate_melody_idea_body
  cases hk : env.parseKey song_key with
  | none => exact absurd hk hkey
  | some u => rw [melodyLoop_error_of_bad_chord env song_key draws chords 0 hch]

/-- C10 witness: the environment `envB` accepts every key but parses no
chord; on the progression ["X"] the melody sketcher returns the fallback. -/
theorem melody_catches_chord_parse_failure_witness :
    envB.parseKey "C major" ≠ none ∧
    (∃ ch ∈ ["X"], envB.parseChord ch = none) ∧
    generate_melody_idea envB drawsZero ["X"] "C major" = fallbackMelody :=
  ⟨by simp [envB], ⟨"X", by simp, rfl⟩,
   melody_catches_chord_parse_failure envB drawsZero ["X"] "C major"
     (by simp [envB]) ⟨"X", by simp, rfl⟩⟩

/-- Helper: any successful Arpeggio Formatter run produces the ascending
half (the chord's notes plus the first note transposed up an octave)
followed by that half's full reverse. -/
theorem arpeggio_tokens_shape (env : Env) (name : String) (c : ParsedChord)
    (toks : List String) (hp : env.parseChord name = some c)
    (ht : generate_arpeggio_tokens env name = Except.ok toks) :
    ∃ n0 rest, c.noteNames = n0 :: rest ∧
      toks = (c.noteNames ++ [env.transpose12 n0]) ++
             (c.noteNames ++ [env.transpose12 n0]).reverse := by
  simp only [generate_arpeggio_tokens, hp] at ht
  cases hn : c.noteNames with
  | nil => rw [hn] at ht; exact absurd ht (by simp)
  | cons n0 rest =>
    rw [hn] at ht
    simp only [Except.ok.injEq] at ht
    exact ⟨n0, rest, rfl, ht.symm⟩

/-- C9: splitting the Arpeggio Formatter's output on the arrow separator
(equivalently, looking at the token list it joins) yields, for a chord of
`n` constituent notes, a sequence of even length `2 * (n + 1)` that equals
its own reverse, so every token occurs an even number of times. -/
theorem arpeggio_even_length_palindrome (env : Env) (name : String)
    (c : ParsedChord) (toks : List String)
    (hp : env.parseChord name = some c)
    (ht : generate_arpeggio_tokens env name = Except.ok toks) :
    toks.length = 2 * (c.noteNames.length + 1) ∧
    toks.reverse = toks ∧
    ∀ t, Even (List.count t toks) := by
  obtain ⟨n0, rest, hn, htoks⟩ := arpeggio_tokens_shape env name c toks hp ht
  subst htoks
  refine ⟨?_, ?_, ?_⟩
  · simp [List.length_append, List.length_reverse]; omega
  · simp [List.reverse_append, List.reverse_reverse]
  · intro t
    rw [List.count_append, List.count_reverse]
    exact ⟨List.count t (c.noteNames ++ [env.transpose12 n0]), rfl⟩

/-- C9 witness: the C major triad under `envC` yields the 8-token
palindrome. -/
theorem arpeggio_even_length_palindrome_witness :
    envC.parseChord "C" = some cMajorChord ∧
    generate_arpeggio_tokens envC "C" =
      Except.ok ["C4", "E4", "G4", "C5", "C5", "G4", "E4", "C4"] ∧
    ((["C4", "E4", "G4", "C5", "C5", "G4", "E4", "C4"] : List String).length =
        2 * (cMajorChord.noteNames.length + 1) ∧
      (["C4", "E4", "G4", "C5", "C5", "G4", "E4", "C4"] : List String).reverse =
        ["C4", "E4", "G4", "C5", "C5", "G4", "E4", "C4"] ∧
      ∀ t, Even (List.count t
        (["C4", "E4", "G4", "C5", "C5", "G4", "E4", "C4"] : List String))) :=
  ⟨rfl, rfl,
   arpeggio_even_length_palindrome envC "C" cMajorChord
     ["C4", "E4", "G4", "C5", "C5", "G4", "E4", "C4"] rfl rfl⟩

/-- C2 counterexample: for the chord symbol "C" the Arpeggio Formatter's
token sequence contains the octave-transposed top note "C5" twice (adjacent
at the center), not exactly once as the claim states; the sequence is also
not the 7-token list the claim would predict. -/
theorem arpeggio_top_note_once_counterexample :
    generate_arpeggio_tokens envC "C" =
      Except.ok ["C4", "E4", "G4", "C5", "C5", "G4", "E4", "C4"] ∧
    List.count "C5" ["C4", "E4", "G4", "C5", "C5", "G4", "E4", "C4"] = 2 ∧
    generate_arpeggio_tokens envC "C" ≠
      Except.ok ["C4", "E4", "G4", "C5", "G4", "E4", "C4"] := by
  refine ⟨rfl, by decide, ?_⟩
  intro h
  have hb : generate_arpeggio_tokens envC "C" =
      Except.ok ["C4", "E4", "G4", "C5", "C5", "G4", "E4", "C4"] := rfl
  have hlists : (["C4", "E4", "G4", "C5", "C5", "G4", "E4", "C4"] : List String) =
      ["C4", "E4", "G4", "C5", "G4", "E4", "C4"] :=
    Except.ok.inj (hb.symm.trans h)
  exact absurd hlists (by decide)

/-- C2 amended: the output token sequence is the ascending half (the chord's
pitches in reported order plus the first pitch transposed up one octave)
followed by its exact full reverse — the added octave note included — so
whenever the octave note does not already occur among the chord's notes, the
highest note appears exactly twice, adjacent at the center. -/
theorem arpeggio_top_note_twice (env : Env) (name n0 : String)
    (rest : List String) (c : ParsedChord) (toks : List String)
    (hp : env.parseChord name = some c)
    (hn : c.noteNames = n0 :: rest)
    (ht : generate_arpeggio_tokens env name = Except.ok toks)
    (hfresh : env.transpose12 n0 ∉ c.noteNames) :
    toks = (c.noteNames ++ [env.transpose12 n0]) ++
           (c.noteNames ++ [env.transpose12 n0]).reverse ∧
    List.count (env.transpose12 n0) toks = 2 := by
  obtain ⟨n0', rest', hn', htoks⟩ := arpeggio_tokens_shape env name c toks hp ht
  rw [hn] at hn'
  injection hn' with h1 h2
  subst h1
  refine ⟨htoks, ?_⟩
  subst htoks
  rw [List.count_append, List.count_reverse, List.count_append,
    List.count_eq_zero_of_not_mem hfresh]
  simp

/-- C2 amended witness: under `envC`, the "C" chord's token list is the
ascending half plus its reverse, and "C5" appears exactly twice. -/
theorem arpeggio_top_note_twice_witness :
    envC.parseChord "C" = some cMajorChord ∧
    cMajorChord.noteNames = "C4" :: ["E4", "G4"] ∧
    envC.transpose12 "C4" ∉ cMajorChord.noteNames ∧
    ((["C4", "E4", "G4", "C5", "C5", "G4", "E4", "C4"] : List String) =
      (cMajorChord.noteNames ++ [envC.transpose12 "C4"]) ++
      (cMajorChord.noteNames ++ [envC.transpose12 "C4"]).reverse ∧
     List.count (envC.transpose12 "C4")
       ["C4", "E4", "G4", "C5", "C5", "G4", "E4", "C4"] = 2) :=
  ⟨rfl, rfl, by decide,
   arpeggio_top_note_twice envC "C" "C4" ["E4", "G4"] cMajorChord
     ["C4", "E4", "G4", "C5", "C5", "G4", "E4", "C4"] rfl rfl rfl (by decide)⟩

/-- Helper: the note events of one chord expose the onset times
`t, t+1, ..., t+len-1`. -/
theorem chordNoteEvents_map_time (ps : List Nat) : ∀ t,
    (chordNoteEvents t ps).map NoteEvent.time = List.range' t ps.length := by
  induction ps with
  | nil => intro t; rfl
  | cons p rest ih =>
    intro t
    simp [chordNoteEvents, List.range'_succ, ih]

/-- Helper: one note event per pitch of the chord. -/
theorem chordNoteEvents_length (ps : List Nat) : ∀ t,
    (chordNoteEvents t ps).length = ps.length := by
  induction ps with
  | nil => intro t; rfl
  | cons p rest ih => intro t; simp [chordNoteEvents, ih]

/-- Helper: every note of a chord block carries the fixed track, channel,
duration and velocity. -/
theorem chordNoteEvents_fields (ps : List Nat) : ∀ t, ∀ e ∈ chordNoteEvents t ps,
    e.track = 0 ∧ e.channel = 0 ∧ e.duration = 1 ∧ e.volume = 100 := by
  induction ps with
  | nil => intro t e he; simp [chordNoteEvents] at he
  | cons p rest ih =>
    intro t e he
    rw [chordNoteEvents] at he
    rcases List.mem_cons.mp he with h | h
    · subst h; exact ⟨rfl, rfl, rfl, rfl⟩
    · exact ih (t + 1) e h

/-- Helper: unfolding the event stream one chord at a time. -/
theorem midiNoteEvents_cons (t : Nat) (ps : List Nat) (pss : List (List Nat)) :
    midiNoteEvents t (ps :: pss) =
      chordNoteEvents t ps ++ midiNoteEvents (t + ps.length + 2) pss := rfl

/-- Helper: the total onset count is the sum of the chords' pitch counts. -/
theorem midiNoteEvents_length (pss : List (List Nat)) : ∀ t,
    (midiNoteEvents t pss).length = (pss.map List.length).sum := by
  induction pss with
  | nil => intro t; rfl
  | cons ps rest ih =>
    intro t
    rw [midiNoteEvents_cons, List.length_append, chordNoteEvents_length, ih]
    simp

/-- Helper: every note of the stream carries the fixed track, channel,
duration and velocity. -/
theorem midiNoteEvents_fields (pss : List (List Nat)) : ∀ t,
    ∀ e ∈ midiNoteEvents t pss,
      e.track = 0 ∧ e.channel = 0 ∧ e.duration = 1 ∧ e.volume = 100 := by
  induction pss with
  | nil => intro t e he; simp [midiNoteEvents, midiChordBlocks] at he
  | cons ps rest ih =>
    intro t e he
    rw [midiNoteEvents_cons] at he
    rcases List.mem_append.mp he with h | h
    · exact chordNoteEvents_fields ps t e h
    · exact ih _ e h

/-- Helper: every onset in a stream started at cursor `t` is at least `t`. -/
theorem midiNoteEvents_time_lb (pss : List (List Nat)) : ∀ t,
    ∀ e ∈ midiNoteEvents t pss, t ≤ e.time := by
  induction pss with
  | nil => intro t e he; simp [midiNoteEvents, midiChordBlocks] at he
  | cons ps rest ih =>
    intro t e he
    rw [midiNoteEvents_cons] at he
    rcases List.mem_append.mp he with h | h
    · have hmem : e.time ∈ (chordNoteEvents t ps).map NoteEvent.time :=
        List.mem_map_of_mem _ h
      rw [chordNoteEvents_map_time] at hmem
      obtain ⟨i, _, hi⟩ := List.mem_range'.mp hmem
      omega
    · have := ih (t + ps.length + 2) e h
      omega

/-- Helper: the onset times are strictly increasing along the emitted
sequence. -/
theorem midiNoteEvents_time_pairwise (pss : List (List Nat)) : ∀ t,
    List.Pairwise (· < ·) ((midiNoteEvents t pss).map NoteEvent.time) := by
  induction pss with
  | nil => intro t; simp [midiNoteEvents, midiChordBlocks]
  | cons ps rest ih =>
    intro t
    rw [midiNoteEvents_cons, List.map_append, List.pairwise_append]
    refine ⟨?_, ih _, ?_⟩
    · rw [chordNoteEvents_map_time]; exact List.pairwise_lt_range' t ps.length
    · intro a ha b hb
      rw [chordNoteEvents_map_time] at ha
      obtain ⟨i, hilt, hieq⟩ := List.mem_range'.mp ha
      obtain ⟨e, he, heq⟩ := List.mem_map.mp hb
      have := midiNoteEvents_time_lb rest (t + ps.length + 2) e he
      omega

/-- Helper: the first onset of a nonempty chord block is the cursor value at
which the block started. -/
theorem chordNoteEvents_head_time (t p : Nat) (ps : List Nat) :
    ((chordNoteEvents t (p :: ps)).head?).map NoteEvent.time = some t := rfl

/-- Helper: the last onset of a nonempty chord block started at `t` is
`t + len - 1`. -/
theorem chordNoteEvents_getLast_time (ps : List Nat) : ∀ t, ps ≠ [] →
    ((chordNoteEvents t ps).getLast?).map NoteEvent.time =
      some (t + ps.length - 1) := by
  induction ps with
  | nil => intro t h; exact absurd rfl h
  | cons p rest ih =>
    intro t _
    cases rest with
    | nil => rfl
    | cons q rest' =>
      rw [chordNoteEvents, chordNoteEvents, List.getLast?_cons_cons,
        ← chordNoteEvents, ih (t + 1) (by simp)]
      congr 1
      simp
      omega

/-- Helper: between consecutive chords the first onset of the later chord is
exactly 3 time units (1 for the last note's duration plus the 2-unit pause)
after the last onset of the earlier chord, provided every chord has at least
one pitch. -/
theorem midiChordBlocks_gap (pss : List (List Nat)) : ∀ t i,
    i + 1 < pss.length → (∀ ps ∈ pss, ps ≠ []) →
    (((midiChordBlocks t pss).getD (i + 1) []).head?).map NoteEvent.time =
      (((midiChordBlocks t pss).getD i []).getLast?).map
        (fun e => e.time + 3) := by
  induction pss with
  | nil => intro t i h _; simp at h
  | cons a rest ih =>
    intro t i h hne
    cases i with
    | zero =>
      cases rest with
      | nil => simp at h
      | cons b rest' =>
        have ha : a ≠ [] := hne a (by simp)
        have hb : b ≠ [] := hne b (by simp)
        obtain ⟨p, ps', hbeq⟩ : ∃ p ps', b = p :: ps' := by
          cases b with
          | nil => exact absurd rfl hb
          | cons p ps' => exact ⟨p, ps', rfl⟩
        rw [midiChordBlocks, midiChordBlocks]
        simp only [List.getD_cons_succ, List.getD_cons_zero]
        rw [hbeq, chordNoteEvents_head_time]
        obtain ⟨e, he, het⟩ := Option.map_eq_some'.mp
          (chordNoteEvents_getLast_time a t ha)
        rw [he]
        simp only [Option.map_some']
        have halen : 1 ≤ a.length := by
          cases a with
          | nil => exact absurd rfl ha
          | cons x xs => simp
        congr 1
        omega
    | succ j =>
      have hex := ih (t + a.length + 2) j (by simpa using h)
        (fun ps hps => hne ps (List.mem_cons_of_mem a hps))
      rw [midiChordBlocks]
      simpa using hex

/-- C6: for a progression whose chord symbols all parse (with pitch lists
`pcs`, each nonempty), the MIDI Exporter produces: tempo 120 BPM on track 0
at time 0; one onset event per chord pitch, so the event count is the sum of
the pitch counts; fixed duration 1, velocity 100, channel 0 on every note;
onset times non-decreasing along the emitted sequence (they are in fact
strictly increasing); and between consecutive chords the first onset of
chord `i+1` is exactly 3 time units after the last onset of chord `i`. -/
theorem midi_exporter_events (env : Env) (chords : List String)
    (pcs : List ParsedChord)
    (hp : chords.mapM env.parseChord = some pcs)
    (hne : ∀ pc ∈ pcs, pc.pitchMidis ≠ []) :
    ∃ m, create_midi_exercise env chords = some m ∧
      m.tempoTrack = 0 ∧ m.tempoTime = 0 ∧ m.tempoBPM = 120 ∧
      (∀ e ∈ m.notes,
        e.track = 0 ∧ e.channel = 0 ∧ e.duration = 1 ∧ e.volume = 100) ∧
      m.notes.length = (pcs.map fun pc => pc.pitchMidis.length).sum ∧
      List.Pairwise (fun a b => a ≤ b) (m.notes.map NoteEvent.time) ∧
      m.notes = (midiChordBlocks 0 (pcs.map fun pc => pc.pitchMidis)).flatten ∧
      ∀ i, i + 1 < pcs.length →
        (((midiChordBlocks 0 (pcs.map fun pc => pc.pitchMidis)).getD (i + 1)
            []).head?).map NoteEvent.time =
        (((midiChordBlocks 0 (pcs.map fun pc => pc.pitchMidis)).getD i
            []).getLast?).map (fun e => e.time + 3) := by
  have hc : create_midi_exercise env chords =
      some { tempoTrack := 0, tempoTime := 0, tempoBPM := 120,
             notes := midiNoteEvents 0 (pcs.map fun pc => pc.pitchMidis) } := by
    unfold create_midi_exercise
    rw [hp]
  refine ⟨_, hc, rfl, rfl, rfl, ?_, ?_, ?_, rfl, ?_⟩
  · exact midiNoteEvents_fields _ 0
  · rw [midiNoteEvents_length, List.map_map]
    rfl
  · exact (midiNoteEvents_time_pairwise _ 0).imp (fun h => le_of_lt h)
  · intro i hi
    refine midiChordBlocks_gap _ 0 i (by simpa using hi) ?_
    intro ps hps
    obtain ⟨pc, hpc, heq⟩ := List.mem_map.mp hps
    rw [← heq]
    exact hne pc hpc

/-- C6 witness: the exporter's guarantees instantiated on the progression
"C G" under `envC`. -/
theorem midi_exporter_events_witness :
    (["C", "G"].mapM envC.parseChord = some [cMajorChord, gMajorChord]) ∧
    (∀ pc ∈ [cMajorChord, gMajorChord], pc.pitchMidis ≠ []) ∧
    (∃ m, create_midi_exercise envC ["C", "G"] = some m ∧
      m.tempoTrack = 0 ∧ m.tempoTime = 0 ∧ m.tempoBPM = 120 ∧
      (∀ e ∈ m.notes,
        e.track = 0 ∧ e.channel = 0 ∧ e.duration = 1 ∧ e.volume = 100) ∧
      m.notes.length =
        ([cMajorChord, gMajorChord].map fun pc => pc.pitchMidis.length).sum ∧
      List.Pairwise (fun a b => a ≤ b) (m.notes.map NoteEvent.time) ∧
      m.notes = (midiChordBlocks 0
        ([cMajorChord, gMajorChord].map fun pc => pc.pitchMidis)).flatten ∧
      ∀ i, i + 1 < ([cMajorChord, gMajorChord] : List ParsedChord).length →
        (((midiChordBlocks 0 ([cMajorChord, gMajorChord].map
            fun pc => pc.pitchMidis)).getD (i + 1) []).head?).map
          NoteEvent.time =
        (((midiChordBlocks 0 ([cMajorChord, gMajorChord].map
            fun pc => pc.pitchMidis)).getD i []).getLast?).map
          (fun e => e.time + 3)) :=
  ⟨rfl, by decide,
   midi_exporter_events envC ["C", "G"] [cMajorChord, gMajorChord] rfl
     (by decide)⟩
